import Mathlib

/-!
Verification of the snapshot-diff / matrix-projection core of the
startlist tracker (`scripts/update_startlists.py`).

The Python functions are shallowly embedded as executable Lean
definitions.  JSON values loaded by `json.load` are modelled by the
inductive `JVal`; Python dicts are insertion-ordered association lists
(CPython dicts preserve insertion order and have unique keys).  Python
`set` objects are modelled by duplicate-free lists; because CPython's
set iteration order for strings is hash-seed dependent and hence not
reproducible across interpreter runs, the rider-level set iteration of
`compute_changes` is an explicit parameter (`ord`) constrained to be an
enumeration of the set, while the inner race-level sets are
canonicalised with `List.dedup` (order irrelevant to the properties
proved below, which are stated up to permutation where order matters).
-/

namespace WM26

/-- JSON values as produced by `json.load` (booleans and floats do not
occur in any input the claims are about and are omitted). -/
inductive JVal where
  | null
  | str (s : String)
  | num (n : Int)
  | arr (elems : List JVal)
  | obj (fields : List (String × JVal))

mutual

/-- Decidable equality on `JVal` (hand-rolled: `deriving` does not
handle the nesting through `List`). -/
def decEqJ : (a b : JVal) → Decidable (a = b)
  | .null, .null => .isTrue rfl
  | .str a, .str b =>
      match decEq a b with
      | .isTrue h => .isTrue (h ▸ rfl)
      | .isFalse h => .isFalse (fun hh => h (JVal.str.inj hh))
  | .num a, .num b =>
      match decEq a b with
      | .isTrue h => .isTrue (h ▸ rfl)
      | .isFalse h => .isFalse (fun hh => h (JVal.num.inj hh))
  | .arr xs, .arr ys =>
      match decEqA xs ys with
      | .isTrue h => .isTrue (h ▸ rfl)
      | .isFalse h => .isFalse (fun hh => h (JVal.arr.inj hh))
  | .obj xs, .obj ys =>
      match decEqO xs ys with
      | .isTrue h => .isTrue (h ▸ rfl)
      | .isFalse h => .isFalse (fun hh => h (JVal.obj.inj hh))
  | .null, .str _ => .isFalse (fun h => JVal.noConfusion h)
  | .null, .num _ => .isFalse (fun h => JVal.noConfusion h)
  | .null, .arr _ => .isFalse (fun h => JVal.noConfusion h)
  | .null, .obj _ => .isFalse (fun h => JVal.noConfusion h)
  | .str _, .null => .isFalse (fun h => JVal.noConfusion h)
  | .str _, .num _ => .isFalse (fun h => JVal.noConfusion h)
  | .str _, .arr _ => .isFalse (fun h => JVal.noConfusion h)
  | .str _, .obj _ => .isFalse (fun h => JVal.noConfusion h)
  | .num _, .null => .isFalse (fun h => JVal.noConfusion h)
  | .num _, .str _ => .isFalse (fun h => JVal.noConfusion h)
  | .num _, .arr _ => .isFalse (fun h => JVal.noConfusion h)
  | .num _, .obj _ => .isFalse (fun h => JVal.noConfusion h)
  | .arr _, .null => .isFalse (fun h => JVal.noConfusion h)
  | .arr _, .str _ => .isFalse (fun h => JVal.noConfusion h)
  | .arr _, .num _ => .isFalse (fun h => JVal.noConfusion h)
  | .arr _, .obj _ => .isFalse (fun h => JVal.noConfusion h)
  | .obj _, .null => .isFalse (fun h => JVal.noConfusion h)
  | .obj _, .str _ => .isFalse (fun h => JVal.noConfusion h)
  | .obj _, .num _ => .isFalse (fun h => JVal.noConfusion h)
  | .obj _, .arr _ => .isFalse (fun h => JVal.noConfusion h)

/-- Decidable equality on lists of `JVal`. -/
def decEqA : (xs ys : List JVal) → Decidable (xs = ys)
  | [], [] => .isTrue rfl
  | [], _ :: _ => .isFalse (fun h => List.noConfusion h)
  | _ :: _, [] => .isFalse (fun h => List.noConfusion h)
  | x :: xs, y :: ys =>
      match decEqJ x y with
      | .isFalse h => .isFalse (fun hh => h (List.cons.inj hh).1)
      | .isTrue h1 =>
          match decEqA xs ys with
          | .isTrue h2 => .isTrue (by rw [h1, h2])
          | .isFalse h2 => .isFalse (fun hh => h2 (List.cons.inj hh).2)

/-- Decidable equality on lists of JSON object fields. -/
def decEqO : (xs ys : List (String × JVal)) → Decidable (xs = ys)
  | [], [] => .isTrue rfl
  | [], _ :: _ => .isFalse (fun h => List.noConfusion h)
  | _ :: _, [] => .isFalse (fun h => List.noConfusion h)
  | (k1, v1) :: xs, (k2, v2) :: ys =>
      match decEq k1 k2 with
      | .isFalse h => .isFalse (fun hh => h (congrArg Prod.fst (List.cons.inj hh).1))
      | .isTrue hk =>
          match decEqJ v1 v2 with
          | .isFalse h => .isFalse (fun hh => h (congrArg Prod.snd (List.cons.inj hh).1))
          | .isTrue hv =>
              match decEqO xs ys with
              | .isTrue ht => .isTrue (by rw [hk, hv, ht])
              | .isFalse ht => .isFalse (fun hh => ht (List.cons.inj hh).2)

end

instance : DecidableEq JVal := decEqJ

/-- Decidable equality for `Except` (needed to `decide` concrete
evaluations of the fallible loaders). -/
instance {ε α : Type} [DecidableEq ε] [DecidableEq α] : DecidableEq (Except ε α)
  | .ok a, .ok b =>
      match decEq a b with
      | .isTrue h => .isTrue (h ▸ rfl)
      | .isFalse h => .isFalse (fun hh => h (Except.ok.inj hh))
  | .error a, .error b =>
      match decEq a b with
      | .isTrue h => .isTrue (h ▸ rfl)
      | .isFalse h => .isFalse (fun hh => h (Except.error.inj hh))
  | .ok _, .error _ => .isFalse (fun h => Except.noConfusion h)
  | .error _, .ok _ => .isFalse (fun h => Except.noConfusion h)

/-- Python truthiness of a JSON value (`if x:`). -/
def JVal.truthy : JVal → Bool
  | .null => false
  | .str s => s ≠ ""
  | .num n => n ≠ 0
  | .arr xs => !xs.isEmpty
  | .obj kvs => !kvs.isEmpty

/-- First-match lookup in a JSON object (CPython dict keys are unique,
so first-match agrees with dict lookup). -/
def jlookup : List (String × JVal) → String → Option JVal
  | [], _ => none
  | (k, v) :: rest, key => if k = key then some v else jlookup rest key

/-- `key in d` on a Python dict. -/
def hasKey (kvs : List (String × JVal)) (key : String) : Bool :=
  (jlookup kvs key).isSome

/-- `d.get(key, default)`. -/
def jgetD (kvs : List (String × JVal)) (key : String) (d : JVal) : JVal :=
  (jlookup kvs key).getD d

/-- `a or b`: `a` if truthy, else `b`. -/
def pyOr (a b : JVal) : JVal := if a.truthy then a else b

/-! ## `load_races` (config normalisation) -/

/-- A race dict after `load_races` normalisation:
`{"name": ..., "url": ...}` (the values may be `null` when the raw
entry has neither field variant). -/
structure RaceNorm where
  name : JVal
  url : JVal
deriving DecidableEq

/-- The ways `load_races` can raise: the explicit
`raise ValueError(...)` branches, or a crash (`AttributeError` /
`TypeError`) from iterating a non-list or calling `.get` on a
non-dict race entry. -/
inductive PyErr where
  | valueError
  | typeError
deriving DecidableEq

/-- One iteration of the normalisation loop:
`{"name": race.get("race_name") or race.get("name"),
  "url": race.get("pcs_url") or race.get("url")}`;
a non-dict entry crashes on `.get`. -/
def normalizeRace : JVal → Except PyErr RaceNorm
  | .obj kvs =>
      .ok { name := pyOr (jgetD kvs "race_name" .null) (jgetD kvs "name" .null)
            url := pyOr (jgetD kvs "pcs_url" .null) (jgetD kvs "url" .null) }
  | _ => .error .typeError

/-- The `for race in races:` normalisation loop (stops at the first
failing entry, as the Python loop does). -/
def normalizeRaces : List JVal → Except PyErr (List RaceNorm)
  | [] => .ok []
  | r :: rs =>
      match normalizeRace r, normalizeRaces rs with
      | .ok n, .ok ns => .ok (n :: ns)
      | .error e, _ => .error e
      | _, .error e => .error e

/-- Python `for x in v`: lists yield elements, dicts yield their keys,
strings yield their characters (as one-character strings); numbers and
`None` are not iterable. -/
def pyIter : JVal → Except PyErr (List JVal)
  | .arr xs => .ok xs
  | .obj kvs => .ok (kvs.map (fun kv => JVal.str kv.1))
  | .str s => .ok (s.toList.map (fun c => JVal.str (String.mk [c])))
  | _ => .error .typeError

/-- `load_races` (file I/O abstracted away: `data` is the parsed JSON):
list input is used as-is; a dict is unwrapped via its `races` key, or
wrapped as a singleton if it bears `race_name`/`name`, otherwise
`ValueError`; any other input is `ValueError`; finally every entry is
field-normalised. -/
def load_races (data : JVal) : Except PyErr (List RaceNorm) :=
  match data with
  | .arr races => normalizeRaces races
  | .obj kvs =>
      if hasKey kvs "races" then
        match pyIter (jgetD kvs "races" .null) with
        | .ok races => normalizeRaces races
        | .error e => .error e
      else if hasKey kvs "race_name" || hasKey kvs "name" then
        normalizeRaces [.obj kvs]
      else .error .valueError
  | _ => .error .valueError

/-- Whether a JSON value is a dict (`isinstance(race, dict)`-style
check on a race entry). -/
def isRaceDict : JVal → Bool
  | .obj _ => true
  | _ => false

/-- Shape condition under which `load_races` succeeds: the input is a
list of dicts, or a dict whose `races` value iterates to a list of
dicts (so: a list of dicts, or empty when it is an empty dict or empty
string), or a singular race dict bearing `race_name` or `name`. -/
def loadRacesOk (data : JVal) : Bool :=
  match data with
  | .arr races => races.all isRaceDict
  | .obj kvs =>
      if hasKey kvs "races" then
        match jgetD kvs "races" .null with
        | .arr xs => xs.all isRaceDict
        | .obj kvs2 => kvs2.isEmpty
        | .str s => s.toList.isEmpty
        | _ => false
      else hasKey kvs "race_name" || hasKey kvs "name"
  | _ => false

/-! ## `load_previous_snapshot` -/

/-- The on-disk prior-snapshot state: `none` when the snapshot file
does not exist; `some r` when it exists and `r` is the outcome of
`json.load` (`Except.error` = unreadable/corrupt).  The persisted
snapshot format is a JSON object, so the parsed value is an
association list. -/
def load_previous_snapshot (disk : Option (Except String (List (String × JVal)))) :
    Except String (List (String × JVal)) :=
  match disk with
  | none => .ok []
  | some r => r

/-! ## `build_snapshot` -/

/-- One fetched rider entry: `{"name": ..., "url": ...}`. -/
structure Entrant where
  name : String
  url : String
deriving DecidableEq

/-- A rider record of the (new-format) snapshot:
`{"name": str, "races": [race_names]}`. -/
structure RiderRec where
  name : String
  races : List String
deriving DecidableEq

/-- A snapshot: insertion-ordered dict `rider_url -> RiderRec`. -/
abbrev Snapshot := List (String × RiderRec)

/-- First-match lookup in a snapshot. -/
def slookup : Snapshot → String → Option RiderRec
  | [], _ => none
  | (k, v) :: rest, key => if k = key then some v else slookup rest key

/-- `snapshot[rider_url]["races"].append(race_name)` (in-place update
of the first record with that key). -/
def sAppendRace (snap : Snapshot) (url race : String) : Snapshot :=
  match snap with
  | [] => []
  | (k, r) :: rest =>
      if k = url then (k, { r with races := r.races ++ [race] }) :: rest
      else (k, r) :: sAppendRace rest url race

/-- Fold one race's entrant list into the snapshot (inner loop of
`build_snapshot`): a rider url absent from the snapshot is inserted
with the entrant's name and an empty race list, after which the race
name is appended to the rider's race list. -/
def buildRace (snap : Snapshot) (race : String) (riders : List Entrant) : Snapshot :=
  riders.foldl
    (fun snap rider =>
      let snap1 :=
        if (slookup snap rider.url).isSome then snap
        else snap ++ [(rider.url, { name := rider.name, races := [] })]
      sAppendRace snap1 rider.url race)
    snap

/-- `build_snapshot`: fold the per-race entrant lists (in mapping
order) into a rider-keyed snapshot. -/
def build_snapshot (startlists : List (String × List Entrant)) : Snapshot :=
  startlists.foldl (fun snap kv => buildRace snap kv.1 kv.2) []

/-- Traversal-order first occurrence of a rider url among the fetched
entrants, returning that entrant's display name. -/
def firstEntrantName (startlists : List (String × List Entrant)) (url : String) :
    Option String :=
  match startlists with
  | [] => none
  | (_, riders) :: rest =>
      match riders.find? (fun e => e.url = url) with
      | some e => some e.name
      | none => firstEntrantName rest url

/-! ## `compute_changes` -/

/-- One change event (the per-run `timestamp` is a parameter: the code
takes it from the wall clock once per call).  `race`, `rider_name` and
`rider_url` are `JVal` because the legacy-format normalisation can put
arbitrary JSON values there. -/
structure Change where
  timestamp : String
  race : JVal
  change_type : String
  rider_name : JVal
  rider_url : JVal
deriving DecidableEq

/-- First-match lookup in the `normalized_old` dict (keys are `JVal`:
legacy rider entries are used as keys without a type check). -/
def aget : List (JVal × JVal) → JVal → Option JVal
  | [], _ => none
  | (k, v) :: rest, key => if k = key then some v else aget rest key

/-- `lst.append(race_name)` on the JSON list held under `"races"`. -/
def arrAppendStr (v : JVal) (race : String) : JVal :=
  match v with
  | .arr xs => .arr (xs ++ [.str race])
  | other => other

/-- `rec["races"].append(race_name)` inside a rider record. -/
def recAppendRace (v : JVal) (race : String) : JVal :=
  match v with
  | .obj kvs =>
      .obj (kvs.map (fun kv => if kv.1 = "races" then (kv.1, arrAppendStr kv.2 race) else kv))
  | other => other

/-- `normalized_old[rider_url]["races"].append(race_name)`. -/
def nAppendRace (m : List (JVal × JVal)) (url : JVal) (race : String) :
    List (JVal × JVal) :=
  m.map (fun kv => if kv.1 = url then (kv.1, recAppendRace kv.2 race) else kv)

/-- A fresh `{"name": rider_name, "races": []}` record. -/
def freshOldRec (name : JVal) : JVal := .obj [("name", name), ("races", .arr [])]

/-- Insert-if-absent followed by appending the race name (shared tail
of both legacy branches). -/
def addOldRider (m : List (JVal × JVal)) (race : String) (url name : JVal) :
    List (JVal × JVal) :=
  let m1 := if (aget m url).isSome then m else m ++ [(url, freshOldRec name)]
  nAppendRace m1 url race

/-- One rider entry of the timestamped legacy format: a string is a
bare rider url (name `""`); a dict is read through its
`url`/`rider_url` and `name`/`rider_name` variants; anything else is
skipped (`continue`); a falsy url is dropped by the `if rider_url`
guards. -/
def processOldRider (m : List (JVal × JVal)) (race : String) (rider : JVal) :
    List (JVal × JVal) :=
  match rider with
  | .str s =>
      if (JVal.str s).truthy then addOldRider m race (.str s) (.str "") else m
  | .obj kvs =>
      let url := jgetD kvs "url" (jgetD kvs "rider_url" (.str ""))
      let name := jgetD kvs "name" (jgetD kvs "rider_name" (.str ""))
      if url.truthy then addOldRider m race url name else m
  | _ => m

/-- The `{"timestamp_utc": ..., "races": {race: [riders]}}` legacy
branch: iterate `old_snapshot.get("races", {})`, skipping race values
that are not lists.  (When the `races` value is neither a dict nor
absent the code raises `AttributeError` on `.items()`; no claim
reaches that case and the model returns the empty dict there.) -/
def normalizeOldTimestamped (old : List (String × JVal)) : List (JVal × JVal) :=
  match jgetD old "races" (.obj []) with
  | .obj entries =>
      entries.foldl
        (fun m kv =>
          match kv.2 with
          | .arr riders => riders.foldl (fun m rider => processOldRider m kv.1 rider) m
          | _ => m)
        []
  | _ => []

/-- The `{race_name: [rider_urls]}` legacy branch: invert the mapping,
rider names unknown (`""`).  Race values that are not lists are
skipped; the rider urls are used unchecked. -/
def invertRaceKeyed (old : List (String × JVal)) : List (JVal × JVal) :=
  old.foldl
    (fun m kv =>
      match kv.2 with
      | .arr urls => urls.foldl (fun m u => addOldRider m kv.1 u (.str "")) m
      | _ => m)
    []

/-- Lines 180–234 of `compute_changes`: normalise the prior snapshot.
An empty prior is kept empty; a top-level `races`/`timestamp_utc` key
selects the timestamped legacy branch; otherwise the format is sniffed
from the first value: a dict bearing `races` means the new format
(passed through), a string means the unreconstructible
`{rider_url: rider_name}` format (treated as empty), a list means the
race-keyed format (inverted), anything else is unknown (empty). -/
def normalize_old (old : List (String × JVal)) : List (JVal × JVal) :=
  if old.isEmpty then []
  else if hasKey old "races" || hasKey old "timestamp_utc" then
    normalizeOldTimestamped old
  else
    match old with
    | [] => []
    | (_, v0) :: _ =>
      match v0 with
      | .obj kvs0 =>
          if hasKey kvs0 "races" then old.map (fun kv => (JVal.str kv.1, kv.2)) else []
      | .str _ => []
      | .arr _ => invertRaceKeyed old
      | _ => []

/-- `set(v)` over a JSON value (duplicate-free list of elements; the
iteration order of a CPython set is not modelled — consumers below are
stated up to permutation).  A non-iterable value raises `TypeError` in
Python; no claim reaches that case. -/
def pySetOf (v : JVal) : List JVal :=
  match v with
  | .arr xs => xs.dedup
  | .obj kvs => (kvs.map (fun kv => JVal.str kv.1)).dedup
  | .str s => (s.toList.map (fun c => JVal.str (String.mk [c]))).dedup
  | _ => []

/-- `set(normalized_old.get(rider_url, {}).get("races", []))`.  (A
non-dict record would raise `AttributeError`; no claim reaches that
case.) -/
def oldRacesOf (no : List (JVal × JVal)) (u : JVal) : List JVal :=
  match aget no u with
  | some (.obj kvs) => pySetOf (jgetD kvs "races" (.arr []))
  | some _ => []
  | none => []

/-- `normalized_old.get(rider_url, {}).get("name")`. -/
def oldNameOf (no : List (JVal × JVal)) (u : JVal) : JVal :=
  match aget no u with
  | some (.obj kvs) => jgetD kvs "name" .null
  | some _ => .null
  | none => .null

/-- `set(new_snapshot.get(rider_url, {}).get("races", []))` (the new
snapshot is always the typed output of `build_snapshot`). -/
def newRacesOf (new : Snapshot) (u : JVal) : List JVal :=
  match u with
  | .str s =>
      match slookup new s with
      | some r => pySetOf (.arr (r.races.map .str))
      | none => []
  | _ => []

/-- `new_snapshot.get(rider_url, {}).get("name")`. -/
def newNameOf (new : Snapshot) (u : JVal) : JVal :=
  match u with
  | .str s =>
      match slookup new s with
      | some r => .str r.name
      | none => .null
  | _ => .null

/-- `new...get("name") or normalized_old...get("name") or "Unknown"`. -/
def riderNameFor (no : List (JVal × JVal)) (new : Snapshot) (u : JVal) : JVal :=
  pyOr (pyOr (newNameOf new u) (oldNameOf no u)) (.str "Unknown")

/-- Set difference on duplicate-free lists. -/
def setMinus (xs ys : List JVal) : List JVal :=
  xs.filter (fun x => decide (x ∉ ys))

/-- The loop body for one rider: one ADDED event per race in
`new_races - old_races`, then one REMOVED event per race in
`old_races - new_races`, all carrying the fallback display name. -/
def eventsFor (ts : String) (no : List (JVal × JVal)) (new : Snapshot) (u : JVal) :
    List Change :=
  let oldR := oldRacesOf no u
  let newR := newRacesOf new u
  let name := riderNameFor no new u
  (setMinus newR oldR).map (fun race => ⟨ts, race, "ADDED", name, u⟩) ++
    (setMinus oldR newR).map (fun race => ⟨ts, race, "REMOVED", name, u⟩)

/-- `compute_changes`: normalise the prior snapshot, then emit events
rider by rider.  `ord` is the iteration order of the CPython set
`all_rider_urls` (hash-seed dependent, hence a parameter); a run of
the program uses some enumeration of that set (`IsEnum` below). -/
def compute_changes (ts : String) (old : List (String × JVal)) (new : Snapshot)
    (ord : List JVal) : List Change :=
  (ord.map (eventsFor ts (normalize_old old) new)).flatten

/-- The members of the set `all_rider_urls`. -/
def allRiderKeys (old : List (String × JVal)) (new : Snapshot) : List JVal :=
  (normalize_old old).map Prod.fst ++ new.map (fun kv => JVal.str kv.1)

/-- `ord` enumerates the set `all_rider_urls`: no repetitions, and the
same members. -/
def IsEnum (ord : List JVal) (old : List (String × JVal)) (new : Snapshot) : Prop :=
  ord.Nodup ∧ (∀ u ∈ ord, u ∈ allRiderKeys old new) ∧
    (∀ u ∈ allRiderKeys old new, u ∈ ord)

instance (ord : List JVal) (old : List (String × JVal)) (new : Snapshot) :
    Decidable (IsEnum ord old new) := by
  unfold IsEnum; infer_instance

/-- JSON encoding of a rider record as persisted by `save_snapshot`. -/
def riderRecToJ (r : RiderRec) : JVal :=
  .obj [("name", .str r.name), ("races", .arr (r.races.map .str))]

/-- JSON encoding of a snapshot as persisted by `save_snapshot`. -/
def snapToJ (s : Snapshot) : List (String × JVal) :=
  s.map (fun kv => (kv.1, riderRecToJ kv.2))

/-! ## `generate_matrix` -/

/-- A canonical race of the catalog (string-named configuration, the
shape `generate_matrix` consumes via `race["name"]`). -/
structure Race where
  name : String
  url : String
deriving DecidableEq

/-- First-match lookup with default in a row dict. -/
def dget (row : List (String × String)) (key d : String) : String :=
  match row with
  | [] => d
  | (k, v) :: rest => if k = key then v else dget rest key d

/-- `row[key] = v`: replace in place if present, else append (CPython
dict update order). -/
def dset (row : List (String × String)) (key v : String) : List (String × String) :=
  match row with
  | [] => [(key, v)]
  | (k, w) :: rest => if k = key then (k, v) :: rest else (k, w) :: dset rest key v

/-- `f"{attended}/{total}"`. -/
def countStr (attended total : Nat) : String :=
  toString attended ++ "/" ++ toString total

/-- Build one rider's row dict: `rider_name`, then an `X`/empty cell
per race name, then `races_count` (attended = size of the rider's race
set). -/
def buildRowDict (race_names : List String) (name : String) (races : List String) :
    List (String × String) :=
  let row1 :=
    race_names.foldl
      (fun r rn => dset r rn (if races.contains rn then "X" else ""))
      [("rider_name", name)]
  dset row1 "races_count" (countStr races.dedup.length race_names.length)

/-- Key used by `rows.sort(key=lambda r: r["rider_name"])`. -/
def rowKey (row : List (String × String)) : String := dget row "rider_name" ""

/-- Python `<` on strings: lexicographic comparison of code points. -/
def charsLt : List Char → List Char → Bool
  | _, [] => false
  | [], _ :: _ => true
  | a :: as, b :: bs =>
      if a.val < b.val then true
      else if b.val < a.val then false
      else charsLt as bs

/-- Python `<` on strings. -/
def strLt (a b : String) : Bool := charsLt a.toList b.toList

/-- Stable insertion into an already sorted row list (placed after
equal keys, as Python's stable sort does). -/
def insertRow (x : List (String × String)) :
    List (List (String × String)) → List (List (String × String))
  | [] => [x]
  | y :: ys => if strLt (rowKey x) (rowKey y) then x :: y :: ys else y :: insertRow x ys

/-- Stable sort of the rows by rider name. -/
def sortRows (rows : List (List (String × String))) : List (List (String × String)) :=
  rows.foldl (fun acc x => insertRow x acc) []

/-- `generate_matrix` (CSV I/O abstracted to the emitted table):
returns the header (`DictWriter` fieldnames) and, per rider row in
sorted order, the cells the writer extracts for each fieldname
(missing keys become empty cells). -/
def generate_matrix (snapshot : Snapshot) (races : List Race) :
    List String × List (List String) :=
  let race_names := races.map Race.name
  let fieldnames := "rider_name" :: race_names ++ ["races_count"]
  let rowDicts := snapshot.map (fun kv => buildRowDict race_names kv.2.name kv.2.races)
  (fieldnames, (sortRows rowDicts).map (fun row => fieldnames.map (fun f => dget row f "")))

/-! ## Auxiliary definitions used to state the claims -/

/-- The embedded form the new-format passthrough branch of
`normalize_old` yields on a persisted snapshot: string keys coerced to
`JVal`, records in their JSON encoding. -/
def embedSnap (s : Snapshot) : List (JVal × JVal) :=
  s.map (fun p => (JVal.str p.1, riderRecToJ p.2))

/-- Display name carried by a change event, as the code computes it:
the new snapshot's name when non-empty, else the old snapshot's name
when present and non-empty, else `"Unknown"`. -/
def fallbackName (oldS newS : Snapshot) (s : String) : String :=
  let n1 := match slookup newS s with | some r => r.name | none => ""
  let n2 := match slookup oldS s with | some r => r.name | none => ""
  if n1 ≠ "" then n1 else if n2 ≠ "" then n2 else "Unknown"

/-- Modelled from the spec side of the refinement claim: register one
`(race, rider id)` pair of the inverted mapping — create the rider
with an empty name if absent, then add the race to its set. -/
def specStep (snap : Snapshot) (id race : String) : Snapshot :=
  sAppendRace
    (if (slookup snap id).isSome then snap
     else snap ++ [(id, { name := "", races := [] })])
    id race

/-- Modelled from the spec side of the refinement claim: the
rider-keyed snapshot obtained by inverting a race-keyed mapping
`race -> rider ids`, with empty-string names where the legacy shape
carries no name. -/
def specInvert (m : List (String × List String)) : Snapshot :=
  m.foldl (fun snap p => p.2.foldl (fun snap id => specStep snap id p.1) snap) []

/-- JSON encoding of the flat race-keyed legacy prior-snapshot shape
`{race_name: [rider_ids]}`. -/
def encodeA (m : List (String × List String)) : List (String × JVal) :=
  m.map (fun p => (p.1, JVal.arr (p.2.map JVal.str)))

/-- JSON encoding of the timestamped legacy prior-snapshot shape
`{"races": {race_name: [rider_ids]}}`. -/
def encodeB (m : List (String × List String)) : List (String × JVal) :=
  [("races", JVal.obj (encodeA m))]

/-- First-value shapes that `normalize_old` does not recognise (and
hence maps to the empty prior): a dict without a `races` key, a bare
string (the unreconstructible `{rider_url: rider_name}` format), a
number, or `null`. -/
def unrecognizedFirst : JVal → Bool
  | .obj kvs => !hasKey kvs "races"
  | .str _ => true
  | .arr _ => false
  | .null => true
  | .num _ => true

/-- Projection of a change event onto the data the bootstrap claim
speaks about: who, which race, which kind. -/
def evKey (e : Change) : JVal × JVal × String := (e.rider_url, e.race, e.change_type)

/-- Number of `X` marks among a row's cells. -/
def countX (cells : List String) : Nat := cells.countP (fun c => c == "X")

/-! ## Helper lemmas -/

theorem slookup_append (s t : Snapshot) (u : String) :
    slookup (s ++ t) u =
      match slookup s u with
      | some r => some r
      | none => slookup t u := by
  induction s with
  | nil => simp [slookup]
  | cons p rest ih =>
      obtain ⟨k, r⟩ := p
      by_cases h : k = u <;> simp [slookup, h, ih]

theorem slookup_sAppendRace (s : Snapshot) (k : String) (race : String) (u : String) :
    slookup (sAppendRace s k race) u =
      if u = k then (slookup s k).map (fun r => { r with races := r.races ++ [race] })
      else slookup s u := by
  induction s with
  | nil => by_cases h : u = k <;> simp [sAppendRace, slookup, h]
  | cons p rest ih =>
      obtain ⟨k1, r1⟩ := p
      by_cases h1 : k1 = k
      · subst h1
        by_cases h2 : u = k1
        · simp [sAppendRace, slookup, h2]
        · have h2s : ¬ k1 = u := fun hh => h2 hh.symm
          simp [sAppendRace, slookup, h2, h2s]
      · by_cases h2 : k1 = u
        · have h3 : ¬ u = k := fun hh => h1 (h2.trans hh)
          simp [sAppendRace, slookup, h1, h2, h3]
        · simp [sAppendRace, slookup, h1, h2, ih]

theorem matchName (o : Option RiderRec) (x : Option String) :
    (match o with
      | some r => some r.name
      | none => x) =
      (match o.map RiderRec.name with
        | some n => some n
        | none => x) := by
  cases o <;> rfl

theorem entrantStep_name (snap : Snapshot) (e : Entrant) (race : String) (u : String) :
    (slookup
        (sAppendRace
          (if (slookup snap e.url).isSome then snap
           else snap ++ [(e.url, { name := e.name, races := [] })])
          e.url race)
        u).map RiderRec.name =
      match slookup snap u with
      | some r => some r.name
      | none => if e.url = u then some e.name else none := by
  rw [slookup_sAppendRace]
  by_cases hu : u = e.url
  · rw [hu]
    simp only [if_pos rfl]
    cases hs : slookup snap e.url with
    | some r => simp [hs, Function.comp]
    | none => simp [hs, slookup_append, slookup, Function.comp]
  · have hu2 : ¬ e.url = u := fun hh => hu hh.symm
    cases hs : slookup snap u with
    | some r =>
        by_cases hp : (slookup snap e.url).isSome <;>
          simp [hu, hp, hs, slookup_append]
    | none =>
        by_cases hp : (slookup snap e.url).isSome <;>
          simp [hu, hu2, hp, hs, slookup_append, slookup]

theorem buildRace_name (riders : List Entrant) (snap : Snapshot) (race : String)
    (u : String) :
    (slookup (buildRace snap race riders) u).map RiderRec.name =
      match slookup snap u with
      | some r => some r.name
      | none => (riders.find? (fun e => e.url = u)).map Entrant.name := by
  induction riders generalizing snap with
  | nil => cases h : slookup snap u <;> simp [buildRace, List.find?, h]
  | cons e rest ih =>
      have step :
          buildRace snap race (e :: rest) =
            buildRace
              (sAppendRace
                (if (slookup snap e.url).isSome then snap
                 else snap ++ [(e.url, { name := e.name, races := [] })])
                e.url race)
              race rest := by
        simp [buildRace]
      rw [step, ih, matchName, entrantStep_name]
      cases h : slookup snap u with
      | some r => simp
      | none =>
          by_cases hu : e.url = u
          · simp [List.find?, hu]
          · simp [List.find?, hu]

theorem build_fold_name (startlists : List (String × List Entrant)) (snap : Snapshot)
    (u : String) :
    (slookup (startlists.foldl (fun s kv => buildRace s kv.1 kv.2) snap) u).map
        RiderRec.name =
      match slookup snap u with
      | some r => some r.name
      | none => firstEntrantName startlists u := by
  induction startlists generalizing snap with
  | nil => cases h : slookup snap u <;> simp [firstEntrantName, h]
  | cons p rest ih =>
      obtain ⟨race, riders⟩ := p
      simp only [List.foldl_cons]
      rw [ih, matchName, buildRace_name]
      cases h : slookup snap u with
      | some r => simp
      | none =>
          cases hf : riders.find? (fun e => e.url = u) with
          | some e => simp [firstEntrantName, hf]
          | none => simp [firstEntrantName, hf]

/-! ## Claim theorems -/

/-- C2 counterexample: the same rider id `"u"` appears under race `R1`
as `"Alice"` and under race `R2` as `"ALICE"`; the claim says the
snapshot records the last-seen name `"ALICE"`, but `build_snapshot`
records the first-seen name `"Alice"` (names are only written when the
rider id is first inserted). -/
theorem c2_counterexample :
    (slookup (build_snapshot [("R1", [⟨"Alice", "u"⟩]), ("R2", [⟨"ALICE", "u"⟩])]) "u").map
        RiderRec.name = some "Alice" ∧
      ("Alice" : String) ≠ "ALICE" := by decide

/-- C2 (amended): when the same rider id appears under several races
with differing display names, the snapshot built by `build_snapshot`
records the riderName of the first-seen entrant for that rider id
(first-seen wins, not last-seen). -/
theorem build_snapshot_first_seen (startlists : List (String × List Entrant))
    (u : String) (r : RiderRec)
    (h : slookup (build_snapshot startlists) u = some r) :
    firstEntrantName startlists u = some r.name := by
  have h2 : slookup (startlists.foldl (fun s kv => buildRace s kv.1 kv.2) []) u =
      some r := h
  have := build_fold_name startlists [] u
  rw [h2] at this
  simp [slookup] at this
  exact this.symm

/-- C2 witness: the amended theorem applied to the two-race input of
the counterexample. -/
theorem build_snapshot_first_seen_witness :
    firstEntrantName [("R1", [⟨"Alice", "u"⟩]), ("R2", [⟨"ALICE", "u"⟩])] "u" =
      some ({ name := "Alice", races := ["R1", "R2"] } : RiderRec).name :=
  build_snapshot_first_seen _ "u" _ (by decide)

/-- C3 counterexample: a prior snapshot file that exists but does not
parse.  The claim says loading never fails and yields the empty prior
state, but `load_previous_snapshot` has no error handling around
`json.load`, so the parse error propagates and the run fails. -/
theorem c3_counterexample :
    load_previous_snapshot (some (.error "corrupt")) = .error "corrupt" ∧
      load_previous_snapshot (some (.error "corrupt")) ≠ .ok [] := by decide

/-- C3 (amended): an absent prior snapshot is treated as the empty
prior state (as on a first run), but an unreadable or corrupt prior
snapshot propagates its error and fails the run; a readable prior
snapshot is returned as parsed. -/
theorem load_previous_snapshot_spec
    (disk : Option (Except String (List (String × JVal)))) :
    (disk = none → load_previous_snapshot disk = .ok []) ∧
      (∀ e, disk = some (.error e) → load_previous_snapshot disk = .error e) ∧
      (∀ j, disk = some (.ok j) → load_previous_snapshot disk = .ok j) := by
  refine ⟨fun h => ?_, fun e h => ?_, fun j h => ?_⟩ <;> subst h <;> rfl

/-- C3 witness: the amended theorem evaluated on a missing file and on
a corrupt file. -/
theorem load_previous_snapshot_spec_witness :
    load_previous_snapshot none = .ok [] ∧
      load_previous_snapshot (some (.error "boom")) = .error "boom" :=
  ⟨(load_previous_snapshot_spec none).1 rfl,
   (load_previous_snapshot_spec (some (.error "boom"))).2.1 "boom" rfl⟩

theorem normalizeRaces_isOk (xs : List JVal) :
    (normalizeRaces xs).isOk = xs.all isRaceDict := by
  induction xs with
  | nil => rfl
  | cons r rs ih =>
      cases r with
      | obj kvs =>
          cases h : normalizeRaces rs with
          | ok ns =>
              have hall : rs.all isRaceDict = true := by rw [← ih, h]; rfl
              simp [normalizeRaces, normalizeRace, h, isRaceDict, hall, Except.isOk,
                Except.toBool]
          | error e =>
              have hall : rs.all isRaceDict = false := by rw [← ih, h]; rfl
              simp [normalizeRaces, normalizeRace, h, isRaceDict, hall, Except.isOk,
                Except.toBool]
      | null => simp [normalizeRaces, normalizeRace, isRaceDict, Except.isOk, Except.toBool]
      | str s => simp [normalizeRaces, normalizeRace, isRaceDict, Except.isOk, Except.toBool]
      | num n => simp [normalizeRaces, normalizeRace, isRaceDict, Except.isOk, Except.toBool]
      | arr elems =>
          simp [normalizeRaces, normalizeRace, isRaceDict, Except.isOk, Except.toBool]

/-- C4 counterexample: the input `[{}]` is a sequence of race objects
whose single entry lacks both a human name (`name`/`race_name`) and a
source locator (`url`/`pcs_url`).  The claim says `load_races` must
fail on it, but it succeeds, returning a race whose fields are both
null. -/
theorem c4_counterexample :
    load_races (.arr [.obj []]) = .ok [{ name := .null, url := .null }] ∧
      hasKey ([] : List (String × JVal)) "race_name" = false ∧
      hasKey ([] : List (String × JVal)) "name" = false ∧
      hasKey ([] : List (String × JVal)) "pcs_url" = false ∧
      hasKey ([] : List (String × JVal)) "url" = false := by decide

/-- C4 (amended): `load_races` fails exactly when the input is neither
a list of race dicts, nor a dict whose `races` value iterates to race
dicts (a list of dicts, or empty), nor a singular race dict bearing
`race_name` or `name`; a race entry lacking name and locator fields
does not make it fail — the entry is normalised with null fields. -/
theorem load_races_ok_iff (data : JVal) : (load_races data).isOk = loadRacesOk data := by
  cases data with
  | null => rfl
  | str s => rfl
  | num n => rfl
  | arr races => simpa [load_races, loadRacesOk] using normalizeRaces_isOk races
  | obj kvs =>
      by_cases hr : hasKey kvs "races"
      · cases hv : jgetD kvs "races" .null with
        | arr xs =>
            simpa [load_races, loadRacesOk, hr, hv, pyIter] using normalizeRaces_isOk xs
        | obj kvs2 =>
            cases kvs2 with
            | nil =>
                simp [load_races, loadRacesOk, hr, hv, pyIter, normalizeRaces,
                  Except.isOk, Except.toBool]
            | cons a as =>
                simp [load_races, loadRacesOk, hr, hv, pyIter, normalizeRaces,
                  normalizeRace, Except.isOk, Except.toBool]
        | str s =>
            cases hs : s.toList with
            | nil =>
                have hs2 : s.data = [] := hs
                simp [load_races, loadRacesOk, hr, hv, pyIter, hs2, normalizeRaces,
                  Except.isOk, Except.toBool]
            | cons c cs =>
                have hs2 : s.data = c :: cs := hs
                simp [load_races, loadRacesOk, hr, hv, pyIter, hs2, normalizeRaces,
                  normalizeRace, Except.isOk, Except.toBool]
        | null => simp [load_races, loadRacesOk, hr, hv, pyIter, Except.isOk, Except.toBool]
        | num n => simp [load_races, loadRacesOk, hr, hv, pyIter, Except.isOk, Except.toBool]
      · by_cases hn : (hasKey kvs "race_name" || hasKey kvs "name") = true
        · simp [load_races, loadRacesOk, hr, hn, normalizeRaces, normalizeRace,
            Except.isOk, Except.toBool]
        · simp [load_races, loadRacesOk, hr, hn, Except.isOk, Except.toBool]

theorem dget_dset_same (row : List (String × String)) (k v d : String) :
    dget (dset row k v) k d = v := by
  induction row with
  | nil => simp [dget, dset]
  | cons p rest ih =>
      by_cases h : p.1 = k <;> simp [dget, dset, h, ih]

theorem dget_dset_other (row : List (String × String)) (k v k2 d : String)
    (h : k ≠ k2) :
    dget (dset row k v) k2 d = dget row k2 d := by
  have h3 : ¬ k2 = k := fun hh => h hh.symm
  induction row with
  | nil => simp [dget, dset, h]
  | cons p rest ih =>
      by_cases h1 : p.1 = k
      · have h2 : ¬ p.1 = k2 := by rw [h1]; exact h
        simp [dget, dset, h1, h2, h]
      · by_cases h2 : p.1 = k2 <;> simp [dget, dset, h1, h2, h3, ih]

theorem fold_dget_notmem (ns : List String) (f : String → String)
    (r0 : List (String × String)) (k d : String) (h : k ∉ ns) :
    dget (ns.foldl (fun r n => dset r n (f n)) r0) k d = dget r0 k d := by
  induction ns generalizing r0 with
  | nil => rfl
  | cons n rest ih =>
      have hk : n ≠ k := fun hh => h (hh ▸ List.mem_cons_self n rest)
      have hrest : k ∉ rest := fun hh => h (List.mem_cons_of_mem n hh)
      simp only [List.foldl_cons]
      rw [ih _ hrest, dget_dset_other _ _ _ _ _ hk]

theorem fold_dget_mem (ns : List String) (f : String → String)
    (r0 : List (String × String)) (n d : String) (h : n ∈ ns) :
    dget (ns.foldl (fun r m => dset r m (f m)) r0) n d = f n := by
  induction ns generalizing r0 with
  | nil => cases h
  | cons m rest ih =>
      simp only [List.foldl_cons]
      by_cases hr : n ∈ rest
      · exact ih _ hr
      · have hnm : n = m := by
          rcases List.mem_cons.mp h with h1 | h1
          · exact h1
          · exact absurd h1 hr
        subst hnm
        rw [fold_dget_notmem _ _ _ _ _ hr, dget_dset_same]

theorem buildRowDict_rider_name (ns : List String) (name : String) (races : List String)
    (h1 : "rider_name" ∉ ns) :
    dget (buildRowDict ns name races) "rider_name" "" = name := by
  unfold buildRowDict
  rw [dget_dset_other _ _ _ _ _ (by decide)]
  rw [fold_dget_notmem _ _ _ _ _ h1]
  rfl

theorem buildRowDict_races_count (ns : List String) (name : String) (races : List String) :
    dget (buildRowDict ns name races) "races_count" "" =
      countStr races.dedup.length ns.length := by
  unfold buildRowDict
  rw [dget_dset_same]

theorem buildRowDict_cell (ns : List String) (name : String) (races : List String)
    (n : String) (hn : n ∈ ns) (h2 : n ≠ "races_count") :
    dget (buildRowDict ns name races) n "" = if races.contains n then "X" else "" := by
  unfold buildRowDict
  rw [dget_dset_other _ _ _ _ _ (fun hh => h2 hh.symm)]
  exact fold_dget_mem ns (fun m => if races.contains m then "X" else "") _ n "" hn

theorem mem_insertRow (x a : List (String × String))
    (l : List (List (String × String))) :
    a ∈ insertRow x l ↔ a = x ∨ a ∈ l := by
  induction l with
  | nil => simp [insertRow]
  | cons y ys ih =>
      by_cases h : strLt (rowKey x) (rowKey y)
      · simp [insertRow, h]
      · simp [insertRow, h, ih]
        tauto

theorem mem_sortRows_fold (l : List (List (String × String)))
    (acc : List (List (String × String))) (a : List (String × String)) :
    a ∈ l.foldl (fun acc x => insertRow x acc) acc ↔ a ∈ acc ∨ a ∈ l := by
  induction l generalizing acc with
  | nil => simp
  | cons x xs ih =>
      simp only [List.foldl_cons]
      rw [ih]
      simp [mem_insertRow]
      tauto

theorem mem_sortRows (l : List (List (String × String))) (a : List (String × String)) :
    a ∈ sortRows l ↔ a ∈ l := by
  unfold sortRows
  rw [mem_sortRows_fold]
  simp

theorem generate_matrix_header (snapshot : Snapshot) (races : List Race) :
    (generate_matrix snapshot races).1 =
      "rider_name" :: races.map Race.name ++ ["races_count"] := rfl

theorem generate_matrix_row_shape (snapshot : Snapshot) (races : List Race)
    (h1 : "rider_name" ∉ races.map Race.name)
    (h2 : "races_count" ∉ races.map Race.name) :
    ∀ row ∈ (generate_matrix snapshot races).2,
      ∃ p ∈ snapshot,
        row = p.2.name ::
          (races.map fun r => if p.2.races.contains r.name then "X" else "") ++
            [countStr p.2.races.dedup.length races.length] := by
  intro row hrow
  simp only [generate_matrix, List.mem_map] at hrow
  obtain ⟨rd, hrd, hrow⟩ := hrow
  rw [mem_sortRows] at hrd
  simp only [List.mem_map] at hrd
  obtain ⟨p, hp, hrd⟩ := hrd
  refine ⟨p, hp, ?_⟩
  subst hrd
  rw [← hrow]
  simp only [List.map_cons, List.map_append, List.map_map]
  rw [buildRowDict_rider_name _ _ _ h1]
  have hcells :
      races.map
          ((fun f => dget (buildRowDict (races.map Race.name) p.2.name p.2.races) f "") ∘
            Race.name) =
        races.map (fun r => if p.2.races.contains r.name then "X" else "") := by
    apply List.map_congr_left
    intro r hr
    have hmem : r.name ∈ races.map Race.name := List.mem_map_of_mem Race.name hr
    have hne : r.name ≠ "races_count" := fun hh => h2 (hh ▸ hmem)
    simp only [Function.comp]
    rw [buildRowDict_cell _ _ _ _ hmem hne]
  have hlast :
      dget (buildRowDict (races.map Race.name) p.2.name p.2.races) "races_count" "" =
        countStr p.2.races.dedup.length races.length := by
    rw [buildRowDict_races_count, List.length_map]
  simp [hcells, hlast]

/-- C1 counterexample: for the one-race catalog `[R1]` and a snapshot
holding rider id `u1`, the emitted header is
`rider_name, R1, races_count` — there is no `rider_url` column at all
(the claim says it is the second column), and the rider's row carries
no rider id anywhere. -/
theorem c1_counterexample :
    (generate_matrix [("u1", { name := "A", races := ["R1"] })] [⟨"R1", "url1"⟩]).1 =
        ["rider_name", "R1", "races_count"] ∧
      "rider_url" ∉
        (generate_matrix [("u1", { name := "A", races := ["R1"] })] [⟨"R1", "url1"⟩]).1 ∧
      (generate_matrix [("u1", { name := "A", races := ["R1"] })] [⟨"R1", "url1"⟩]).2 =
        [["A", "X", "1/1"]] ∧
      "u1" ∉ (["A", "X", "1/1"] : List String) := by decide

/-- C1 (amended): the presence-matrix header is `rider_name`, then one
column per race in catalog order, then `races_count` — with no
`rider_url` column — and (provided no race is named after the two
reserved columns) each rider row is the rider's display name, an
`X`/empty cell per race, and the `<attended>/<total>` count; rider ids
appear nowhere in the artifact. -/
theorem generate_matrix_columns (snapshot : Snapshot) (races : List Race)
    (h1 : "rider_name" ∉ races.map Race.name)
    (h2 : "races_count" ∉ races.map Race.name) :
    (generate_matrix snapshot races).1 =
        "rider_name" :: races.map Race.name ++ ["races_count"] ∧
      ∀ row ∈ (generate_matrix snapshot races).2,
        ∃ p ∈ snapshot,
          row = p.2.name ::
            (races.map fun r => if p.2.races.contains r.name then "X" else "") ++
              [countStr p.2.races.dedup.length races.length] :=
  ⟨generate_matrix_header snapshot races, generate_matrix_row_shape snapshot races h1 h2⟩

/-- C1 witness: the amended theorem evaluated on the counterexample
snapshot and catalog. -/
theorem generate_matrix_columns_witness :
    (generate_matrix [("u1", { name := "A", races := ["R1"] })] [⟨"R1", "url1"⟩]).1 =
        "rider_name" :: ([⟨"R1", "url1"⟩] : List Race).map Race.name ++ ["races_count"] ∧
      ∀ row ∈ (generate_matrix [("u1", { name := "A", races := ["R1"] })]
          [⟨"R1", "url1"⟩]).2,
        ∃ p ∈ ([("u1", { name := "A", races := ["R1"] })] : Snapshot),
          row = p.2.name ::
            (([⟨"R1", "url1"⟩] : List Race).map
              fun r => if p.2.races.contains r.name then "X" else "") ++
              [countStr p.2.races.dedup.length ([⟨"R1", "url1"⟩] : List Race).length] :=
  generate_matrix_columns _ _ (by decide) (by decide)

theorem countX_cells (names rs : List String) (hnodup : names.Nodup)
    (hsub : ∀ r ∈ rs, r ∈ names) :
    countX (names.map fun n => if rs.contains n then "X" else "") = rs.dedup.length := by
  unfold countX
  rw [List.countP_map]
  have hcongr :
      names.countP
          ((fun c => c == "X") ∘ fun n => if rs.contains n then "X" else "") =
        names.countP (fun n => rs.contains n) := by
    apply List.countP_congr
    intro a _
    by_cases h : rs.contains a <;> simp [h, Function.comp]
  rw [hcongr, List.countP_eq_length_filter]
  apply List.Perm.length_eq
  refine (List.perm_ext_iff_of_nodup (hnodup.filter _) (List.nodup_dedup rs)).mpr ?_
  intro a
  simp only [List.mem_filter, List.mem_dedup, List.contains_eq_any_beq, List.any_beq]
  exact ⟨fun h => h.2, fun h => ⟨hsub a h, h⟩⟩

/-- C9 counterexample: the catalog holds a single race named
`races_count` (race names unique; the rider's race set has no dangling
reference), yet the rider's row is `["A", "1/1", "1/1"]`: the presence
cell for that race was overwritten by the count string, so the number
of `X` cells is 0 while `attended` is 1 — the claimed count invariant
fails. -/
theorem c9_counterexample :
    (generate_matrix [("u", { name := "A", races := ["races_count"] })]
        [⟨"races_count", "x"⟩]).2 = [["A", "1/1", "1/1"]] ∧
      countX ["1/1"] = 0 ∧
      (["races_count"] : List String).dedup.length = 1 ∧
      (∀ race ∈ ({ name := "A", races := ["races_count"] } : RiderRec).races,
        race ∈ ([⟨"races_count", "x"⟩] : List Race).map Race.name) := by decide

/-- C9 (amended): provided the catalog's race names are distinct, none
of them is one of the reserved header columns `rider_name` or
`races_count`, and every race in a rider's set occurs in the catalog
(the snapshot invariant), every emitted row consists of the rider's
name, one `X`/empty cell per race, and a `races_count` cell whose
attended component equals the number of `X` cells and whose total
component is the number of races in the catalog. -/
theorem generate_matrix_count_invariant (snapshot : Snapshot) (races : List Race)
    (hnodup : (races.map Race.name).Nodup)
    (h1 : "rider_name" ∉ races.map Race.name)
    (h2 : "races_count" ∉ races.map Race.name)
    (hinv : ∀ p ∈ snapshot, ∀ race ∈ p.2.races, race ∈ races.map Race.name) :
    ∀ row ∈ (generate_matrix snapshot races).2,
      ∃ p ∈ snapshot,
        row = p.2.name ::
          (races.map fun r => if p.2.races.contains r.name then "X" else "") ++
            [countStr
              (countX (races.map fun r => if p.2.races.contains r.name then "X" else ""))
              races.length] := by
  intro row hrow
  obtain ⟨p, hp, hshape⟩ := generate_matrix_row_shape snapshot races h1 h2 row hrow
  refine ⟨p, hp, ?_⟩
  rw [hshape]
  have hc :
      countX (races.map fun r => if p.2.races.contains r.name then "X" else "") =
        p.2.races.dedup.length := by
    have hx := countX_cells (races.map Race.name) p.2.races hnodup (hinv p hp)
    rw [List.map_map] at hx
    simpa [Function.comp] using hx
  rw [hc]

/-- C9 witness: the amended theorem evaluated on a well-formed
one-race catalog and one-rider snapshot, at the single emitted row. -/
theorem generate_matrix_count_invariant_witness :
    ∃ p ∈ ([("u", { name := "A", races := ["R1"] })] : Snapshot),
      (["A", "X", "1/1"] : List String) = p.2.name ::
        (([⟨"R1", "x"⟩] : List Race).map
          fun r => if p.2.races.contains r.name then "X" else "") ++
          [countStr
            (countX (([⟨"R1", "x"⟩] : List Race).map
              fun r => if p.2.races.contains r.name then "X" else ""))
            ([⟨"R1", "x"⟩] : List Race).length] :=
  generate_matrix_count_invariant _ _ (by decide) (by decide) (by decide) (by decide)
    ["A", "X", "1/1"] (by decide)

theorem setMinus_self (xs : List JVal) : setMinus xs xs = [] := by
  unfold setMinus
  rw [List.filter_eq_nil_iff]
  intro a ha
  simp [ha]

theorem setMinus_nil (xs : List JVal) : setMinus xs [] = xs := by
  unfold setMinus
  rw [List.filter_eq_self]
  intro a _
  simp

theorem compute_changes_flatMap (ts : String) (old : List (String × JVal))
    (new : Snapshot) (ord : List JVal) :
    compute_changes ts old new ord = ord.flatMap (eventsFor ts (normalize_old old) new) :=
  rfl

theorem slookup_eq_none (s : Snapshot) (k : String) (h : ∀ p ∈ s, p.1 ≠ k) :
    slookup s k = none := by
  induction s with
  | nil => rfl
  | cons p rest ih =>
      have h1 := h p (List.mem_cons_self p rest)
      simp only [slookup]
      rw [if_neg h1]
      exact ih (fun q hq => h q (List.mem_cons_of_mem p hq))

theorem jlookup_snapToJ (s : Snapshot) (k : String) :
    jlookup (snapToJ s) k = (slookup s k).map riderRecToJ := by
  induction s with
  | nil => rfl
  | cons p rest ih =>
      show jlookup ((p.1, riderRecToJ p.2) :: snapToJ rest) k =
        ((if p.1 = k then some p.2 else slookup rest k)).map riderRecToJ
      by_cases h : p.1 = k
      · simp [jlookup, h]
      · simp only [jlookup, if_neg h]
        exact ih

theorem aget_embedSnap_str (s : Snapshot) (u : String) :
    aget (embedSnap s) (.str u) = (slookup s u).map riderRecToJ := by
  induction s with
  | nil => rfl
  | cons p rest ih =>
      show aget ((JVal.str p.1, riderRecToJ p.2) :: embedSnap rest) (.str u) =
        ((if p.1 = u then some p.2 else slookup rest u)).map riderRecToJ
      by_cases h : p.1 = u
      · simp [aget, h]
      · have hne : JVal.str p.1 ≠ JVal.str u := fun hh => h (JVal.str.inj hh)
        simp only [aget, if_neg hne, if_neg h]
        exact ih

theorem aget_embedSnap_notstr (s : Snapshot) (u : JVal)
    (h : ∀ v : String, u ≠ .str v) :
    aget (embedSnap s) u = none := by
  induction s with
  | nil => rfl
  | cons p rest ih =>
      show aget ((JVal.str p.1, riderRecToJ p.2) :: embedSnap rest) u = none
      have hne : JVal.str p.1 ≠ u := fun hh => h p.1 hh.symm
      simp only [aget, if_neg hne]
      exact ih

theorem map_snapToJ_embed (s : Snapshot) :
    (snapToJ s).map (fun kv => (JVal.str kv.1, kv.2)) = embedSnap s := by
  unfold snapToJ embedSnap
  rw [List.map_map]
  rfl

theorem normalize_old_snapToJ (s : Snapshot)
    (hk : ∀ p ∈ s, p.1 ≠ "races" ∧ p.1 ≠ "timestamp_utc") :
    normalize_old (snapToJ s) = embedSnap s := by
  cases s with
  | nil => rfl
  | cons p rest =>
      have hr : hasKey (snapToJ (p :: rest)) "races" = false := by
        unfold hasKey
        rw [jlookup_snapToJ, slookup_eq_none _ _ (fun q hq => (hk q hq).1)]
        rfl
      have ht : hasKey (snapToJ (p :: rest)) "timestamp_utc" = false := by
        unfold hasKey
        rw [jlookup_snapToJ, slookup_eq_none _ _ (fun q hq => (hk q hq).2)]
        rfl
      have hv : riderRecToJ p.2 =
          JVal.obj [("name", JVal.str p.2.name),
            ("races", JVal.arr (p.2.races.map JVal.str))] := rfl
      have hempty : (snapToJ (p :: rest)).isEmpty = false := rfl
      show normalize_old ((p.1, riderRecToJ p.2) :: snapToJ rest) = embedSnap (p :: rest)
      unfold normalize_old
      rw [show (((p.1, riderRecToJ p.2) :: snapToJ rest : List (String × JVal)).isEmpty) =
        false from hempty]
      rw [show hasKey ((p.1, riderRecToJ p.2) :: snapToJ rest) "races" = false from hr]
      rw [show hasKey ((p.1, riderRecToJ p.2) :: snapToJ rest) "timestamp_utc" = false
        from ht]
      simp only [Bool.false_eq_true, if_false, Bool.or_self]
      rw [hv]
      have hinner :
          hasKey [("name", JVal.str p.2.name),
            ("races", JVal.arr (p.2.races.map JVal.str))] "races" = true := rfl
      simp only [hinner, if_true]
      rw [show ((p.1, JVal.obj [("name", JVal.str p.2.name),
          ("races", JVal.arr (p.2.races.map JVal.str))]) :: snapToJ rest) =
        snapToJ (p :: rest) from rfl]
      exact map_snapToJ_embed (p :: rest)

theorem oldRacesOf_embedSnap (s : Snapshot) (u : JVal) :
    oldRacesOf (embedSnap s) u = newRacesOf s u := by
  cases u with
  | str v =>
      rw [oldRacesOf, aget_embedSnap_str]
      cases h : slookup s v with
      | some r => simp [newRacesOf, h, riderRecToJ, jgetD, jlookup]
      | none => simp [newRacesOf, h]
  | null =>
      rw [oldRacesOf, aget_embedSnap_notstr _ _ (fun v hv => JVal.noConfusion hv)]
      rfl
  | num n =>
      rw [oldRacesOf, aget_embedSnap_notstr _ _ (fun v hv => JVal.noConfusion hv)]
      rfl
  | arr xs =>
      rw [oldRacesOf, aget_embedSnap_notstr _ _ (fun v hv => JVal.noConfusion hv)]
      rfl
  | obj kvs =>
      rw [oldRacesOf, aget_embedSnap_notstr _ _ (fun v hv => JVal.noConfusion hv)]
      rfl

theorem oldNameOf_embedSnap (s : Snapshot) (u : JVal) :
    oldNameOf (embedSnap s) u = newNameOf s u := by
  cases u with
  | str v =>
      rw [oldNameOf, aget_embedSnap_str]
      cases h : slookup s v with
      | some r => simp [newNameOf, h, riderRecToJ, jgetD, jlookup]
      | none => simp [newNameOf, h]
  | null =>
      rw [oldNameOf, aget_embedSnap_notstr _ _ (fun v hv => JVal.noConfusion hv)]
      rfl
  | num n =>
      rw [oldNameOf, aget_embedSnap_notstr _ _ (fun v hv => JVal.noConfusion hv)]
      rfl
  | arr xs =>
      rw [oldNameOf, aget_embedSnap_notstr _ _ (fun v hv => JVal.noConfusion hv)]
      rfl
  | obj kvs =>
      rw [oldNameOf, aget_embedSnap_notstr _ _ (fun v hv => JVal.noConfusion hv)]
      rfl

/-- C7 counterexample: a snapshot whose only rider id is literally
`"races"`.  The legacy-format sniffing in `compute_changes` sees the
top-level `races` key and mis-normalises the prior snapshot, so
diffing the snapshot against itself (with a valid enumeration of the
rider-url set) emits two events instead of none. -/
theorem c7_counterexample :
    IsEnum [.str "R1", .str "races"]
        (snapToJ [("races", { name := "Bob", races := ["R1"] })])
        [("races", { name := "Bob", races := ["R1"] })] ∧
      compute_changes "t" (snapToJ [("races", { name := "Bob", races := ["R1"] })])
        [("races", { name := "Bob", races := ["R1"] })] [.str "R1", .str "races"] =
        [⟨"t", .str "races", "REMOVED", .str "Unknown", .str "R1"⟩,
         ⟨"t", .str "R1", "ADDED", .str "Bob", .str "races"⟩] := by decide

/-- C7 (amended): diffing a snapshot against its own persisted form
yields no events, provided no rider id is one of the reserved keys
`races` or `timestamp_utc` that the legacy-format sniffing reacts to;
this holds for every iteration order of the rider-url set. -/
theorem compute_changes_self (ts : String) (s : Snapshot) (ord : List JVal)
    (hk : ∀ p ∈ s, p.1 ≠ "races" ∧ p.1 ≠ "timestamp_utc") :
    compute_changes ts (snapToJ s) s ord = [] := by
  rw [compute_changes_flatMap, normalize_old_snapToJ s hk]
  have hev : ∀ u, eventsFor ts (embedSnap s) s u = [] := by
    intro u
    unfold eventsFor
    rw [oldRacesOf_embedSnap]
    simp [setMinus_self]
  have : ord.map (eventsFor ts (embedSnap s) s) = ord.map (fun _ => []) :=
    List.map_congr_left (fun u _ => hev u)
  show (ord.map (eventsFor ts (embedSnap s) s)).flatten = []
  rw [this]
  simp

/-- C7 witness: the amended theorem evaluated on a two-rider snapshot
with ordinary rider ids. -/
theorem compute_changes_self_witness :
    compute_changes "t"
        (snapToJ [("u1", { name := "A", races := ["R1"] }),
          ("u2", { name := "B", races := ["R1", "R2"] })])
        [("u1", { name := "A", races := ["R1"] }),
          ("u2", { name := "B", races := ["R1", "R2"] })]
        [.str "u2", .str "u1"] = [] :=
  compute_changes_self "t" _ _ (by decide)

/-- C5 counterexample: two valid enumerations of the same rider-url
set (the code iterates a CPython `set`, whose string iteration order
is hash-seed dependent and so varies between interpreter runs) produce
the same events in different orders, so the diff output is not a
deterministic sequence, and riders are not visited sorted by rider
id. -/
theorem c5_counterexample :
    IsEnum [.str "a", .str "b"] []
        [("a", { name := "A", races := ["R"] }), ("b", { name := "B", races := ["R"] })] ∧
      IsEnum [.str "b", .str "a"] []
        [("a", { name := "A", races := ["R"] }), ("b", { name := "B", races := ["R"] })] ∧
      compute_changes "t" []
          [("a", { name := "A", races := ["R"] }), ("b", { name := "B", races := ["R"] })]
          [.str "a", .str "b"] ≠
        compute_changes "t" []
          [("a", { name := "A", races := ["R"] }), ("b", { name := "B", races := ["R"] })]
          [.str "b", .str "a"] := by decide

/-- C5 (amended): the diff output is deterministic only up to the
iteration order of the rider-url set: any two valid enumerations of
that set yield the same multiset of events (permutations of each
other), but not necessarily the same sequence. -/
theorem compute_changes_perm (ts : String) (old : List (String × JVal)) (new : Snapshot)
    (ord1 ord2 : List JVal) (h1 : IsEnum ord1 old new) (h2 : IsEnum ord2 old new) :
    (compute_changes ts old new ord1).Perm (compute_changes ts old new ord2) := by
  have hperm : ord1.Perm ord2 := by
    refine (List.perm_ext_iff_of_nodup h1.1 h2.1).mpr ?_
    intro a
    exact ⟨fun h => h2.2.2 a (h1.2.1 a h), fun h => h1.2.2 a (h2.2.1 a h)⟩
  rw [compute_changes_flatMap, compute_changes_flatMap]
  exact hperm.flatMap_right _

/-- C5 witness: the amended theorem evaluated on the two enumerations
of the counterexample. -/
theorem compute_changes_perm_witness :
    (compute_changes "t" []
        [("a", { name := "A", races := ["R"] }), ("b", { name := "B", races := ["R"] })]
        [.str "a", .str "b"]).Perm
      (compute_changes "t" []
        [("a", { name := "A", races := ["R"] }), ("b", { name := "B", races := ["R"] })]
        [.str "b", .str "a"]) :=
  compute_changes_perm "t" [] _ _ _ (by decide) (by decide)

theorem oldRacesOf_nil (u : JVal) : oldRacesOf [] u = [] := rfl

theorem eventsFor_empty_old (ts : String) (new : Snapshot) (u : JVal) :
    eventsFor ts [] new u =
      (newRacesOf new u).map
        (fun race =>
          ⟨ts, race, "ADDED", riderNameFor [] new u, u⟩) := by
  unfold eventsFor
  rw [oldRacesOf_nil]
  simp [setMinus_nil, setMinus]

theorem slookup_of_mem_nodup (s : Snapshot) (hS : (s.map Prod.fst).Nodup)
    (p : String × RiderRec) (hp : p ∈ s) : slookup s p.1 = some p.2 := by
  induction s with
  | nil => cases hp
  | cons q rest ih =>
      rcases List.mem_cons.mp hp with h | h
      · subst h
        simp [slookup]
      · have hq : q.1 ∉ rest.map Prod.fst := by
          have := hS
          simp only [List.map_cons, List.nodup_cons] at this
          exact this.1
        have hne : ¬ q.1 = p.1 := by
          intro hh
          exact hq (hh ▸ List.mem_map_of_mem Prod.fst h)
        simp only [slookup, if_neg hne]
        exact ih (by simpa [List.nodup_cons] using (List.nodup_cons.mp
          (by simpa [List.map_cons] using hS)).2) h

/-- C6: diffing against an absent prior snapshot (which
`load_previous_snapshot` turns into the empty prior) yields, for every
valid enumeration of the rider-url set, exactly one ADDED event per
(rider, race) pair present in the new snapshot and no REMOVED events:
the events project, up to permutation, onto the list that holds one
`(rider id, race, ADDED)` triple for each pair of the snapshot. -/
theorem compute_changes_first_run (ts : String) (s : Snapshot)
    (prior : List (String × JVal)) (ord : List JVal)
    (hprior : load_previous_snapshot none = .ok prior)
    (henum : IsEnum ord prior s) (hS : (s.map Prod.fst).Nodup) :
    ((compute_changes ts prior s ord).map evKey).Perm
      ((s.map (fun p =>
        ((p.2.races.map JVal.str).dedup).map
          (fun race => (JVal.str p.1, race, ("ADDED" : String))))).flatten) := by
  have hpe : ([] : List (String × JVal)) = prior := Except.ok.inj hprior
  subst hpe
  have h1 : (compute_changes ts [] s ord).map evKey =
      ord.flatMap (fun u => (eventsFor ts [] s u).map evKey) := by
    rw [compute_changes_flatMap]
    exact List.map_flatMap evKey _ ord
  have h2 : ∀ u, (eventsFor ts [] s u).map evKey =
      (newRacesOf s u).map (fun race => (u, race, ("ADDED" : String))) := by
    intro u
    rw [eventsFor_empty_old, List.map_map]
    rfl
  have h3 : (compute_changes ts [] s ord).map evKey =
      ord.flatMap (fun u => (newRacesOf s u).map (fun race => (u, race, ("ADDED" : String)))) := by
    rw [h1]
    unfold List.flatMap
    exact congrArg List.flatten (List.map_congr_left (fun u _ => h2 u))
  rw [h3]
  have hperm : ord.Perm (s.map (fun p => JVal.str p.1)) := by
    have hn2 : (s.map (fun p => JVal.str p.1)).Nodup := by
      have : s.map (fun p => JVal.str p.1) = (s.map Prod.fst).map JVal.str := by
        rw [List.map_map]
        rfl
      rw [this]
      exact hS.map (fun a b hh => JVal.str.inj hh)
    refine (List.perm_ext_iff_of_nodup henum.1 hn2).mpr ?_
    intro a
    have hall : allRiderKeys [] s = s.map (fun p => JVal.str p.1) := rfl
    exact ⟨fun h => hall ▸ henum.2.1 a h, fun h => henum.2.2 a (hall ▸ h)⟩
  have hflat := hperm.flatMap_right
    (fun u => (newRacesOf s u).map (fun race => (u, race, ("ADDED" : String))))
  refine hflat.trans ?_
  rw [List.flatMap_map]
  have hcongr : ∀ p ∈ s,
      (newRacesOf s (JVal.str p.1)).map
          (fun race => (JVal.str p.1, race, ("ADDED" : String))) =
        ((p.2.races.map JVal.str).dedup).map
          (fun race => (JVal.str p.1, race, ("ADDED" : String))) := by
    intro p hp
    rw [show newRacesOf s (JVal.str p.1) =
      (match slookup s p.1 with
        | some r => pySetOf (.arr (r.races.map .str))
        | none => []) from rfl]
    rw [slookup_of_mem_nodup s hS p hp]
    rfl
  unfold List.flatMap
  rw [List.map_congr_left hcongr]

/-- C6 witness: the theorem evaluated on a concrete two-rider
snapshot with a valid enumeration. -/
theorem compute_changes_first_run_witness :
    ((compute_changes "t" []
        [("a", { name := "A", races := ["R1", "R2"] }), ("b", { name := "B", races := ["R2"] })]
        [.str "b", .str "a"]).map evKey).Perm
      (([("a", { name := "A", races := ["R1", "R2"] }),
          ("b", { name := "B", races := ["R2"] })].map
        (fun p : String × RiderRec =>
          ((p.2.races.map JVal.str).dedup).map
            (fun race => (JVal.str p.1, race, ("ADDED" : String))))).flatten) :=
  compute_changes_first_run "t" _ [] _ rfl (by decide) (by decide)

theorem mem_eventsFor (ts : String) (no : List (JVal × JVal)) (new : Snapshot)
    (u : JVal) (e : Change) (he : e ∈ eventsFor ts no new u) :
    e.rider_url = u ∧ e.rider_name = riderNameFor no new u := by
  unfold eventsFor at he
  simp only [List.mem_append, List.mem_map] at he
  rcases he with ⟨race, _, rfl⟩ | ⟨race, _, rfl⟩ <;> exact ⟨rfl, rfl⟩

theorem mem_compute_changes (ts : String) (old : List (String × JVal)) (new : Snapshot)
    (ord : List JVal) (e : Change) (he : e ∈ compute_changes ts old new ord) :
    ∃ u ∈ ord, e.rider_url = u ∧ e.rider_name = riderNameFor (normalize_old old) new u := by
  rw [compute_changes_flatMap] at he
  rw [List.mem_flatMap] at he
  obtain ⟨u, hu, he⟩ := he
  exact ⟨u, hu, mem_eventsFor ts _ new u e he⟩

theorem riderNameFor_embed (oldS newS : Snapshot) (v : String) :
    riderNameFor (embedSnap oldS) newS (.str v) = .str (fallbackName oldS newS v) := by
  unfold riderNameFor
  rw [oldNameOf_embedSnap]
  cases hn : slookup newS v with
  | some r =>
      by_cases h1 : r.name = ""
      · cases ho : slookup oldS v with
        | some r2 =>
            by_cases h2 : r2.name = "" <;>
              simp [pyOr, JVal.truthy, newNameOf, hn, ho, h1, h2, fallbackName]
        | none => simp [pyOr, JVal.truthy, newNameOf, hn, ho, h1, fallbackName]
      · cases ho : slookup oldS v with
        | some r2 => simp [pyOr, JVal.truthy, newNameOf, hn, ho, h1, fallbackName]
        | none => simp [pyOr, JVal.truthy, newNameOf, hn, ho, h1, fallbackName]
  | none =>
      cases ho : slookup oldS v with
      | some r2 =>
          by_cases h2 : r2.name = "" <;>
            simp [pyOr, JVal.truthy, newNameOf, hn, ho, h2, fallbackName]
      | none => simp [pyOr, JVal.truthy, newNameOf, hn, ho, fallbackName]

/-- C8 counterexample: rider `u` is present in the new snapshot with
the (legitimately empty) display name `""` and was on record in the
old snapshot as `"Bob"`.  The claim says the emitted event carries the
new snapshot's name `""` because the rider is present there, but the
code tests truthiness, falls through the empty string, and carries
`"Bob"`. -/
theorem c8_counterexample :
    compute_changes "t" (snapToJ [("u", { name := "Bob", races := ["R1"] })])
        [("u", { name := "", races := ["R1", "R2"] })] [.str "u"] =
        [⟨"t", .str "R2", "ADDED", .str "Bob", .str "u"⟩] ∧
      slookup [("u", { name := "", races := ["R1", "R2"] })] "u" =
        some { name := "", races := ["R1", "R2"] } ∧
      (JVal.str "Bob") ≠ (JVal.str "") := by decide

/-- C8 (amended): provided no rider id in the old snapshot is one of
the reserved sniffing keys `races` or `timestamp_utc` (which would
make the legacy-format detection mis-normalise the prior and lose its
names), every emitted change event for a rider carries the rider's
display name from the new snapshot if that name is non-empty, else the
name on record in the old snapshot if present and non-empty, else the
literal placeholder `"Unknown"` (Python truthiness, not mere presence,
selects the fallback). -/
theorem compute_changes_rider_name (ts : String) (oldS newS : Snapshot) (ord : List JVal)
    (hk : ∀ p ∈ oldS, p.1 ≠ "races" ∧ p.1 ≠ "timestamp_utc") :
    ∀ e ∈ compute_changes ts (snapToJ oldS) newS ord, ∀ v : String,
      e.rider_url = .str v → e.rider_name = .str (fallbackName oldS newS v) := by
  intro e he v hv
  obtain ⟨u, _, hurl, hname⟩ := mem_compute_changes ts _ newS ord e he
  rw [normalize_old_snapToJ oldS hk] at hname
  rw [hurl] at hv
  subst hv
  rw [hname, riderNameFor_embed]

/-- C8 witness: the amended theorem evaluated on the counterexample
inputs at the single emitted event. -/
theorem compute_changes_rider_name_witness :
    (⟨"t", .str "R2", "ADDED", .str "Bob", .str "u"⟩ : Change).rider_name =
      .str (fallbackName [("u", { name := "Bob", races := ["R1"] })]
        [("u", { name := "", races := ["R1", "R2"] })] "u") :=
  compute_changes_rider_name "t" [("u", { name := "Bob", races := ["R1"] })]
    [("u", { name := "", races := ["R1", "R2"] })] [.str "u"] (by decide)
    ⟨"t", .str "R2", "ADDED", .str "Bob", .str "u"⟩ (by decide) "u" rfl

theorem keys_sAppendRace (s : Snapshot) (k race : String) :
    (sAppendRace s k race).map Prod.fst = s.map Prod.fst := by
  induction s with
  | nil => rfl
  | cons p rest ih =>
      by_cases h : p.1 = k <;> simp [sAppendRace, h, ih]

theorem slookup_none_iff (s : Snapshot) (k : String) :
    slookup s k = none ↔ k ∉ s.map Prod.fst := by
  induction s with
  | nil => simp [slookup]
  | cons p rest ih =>
      by_cases h : p.1 = k
      · subst h
        simp [slookup]
      · rw [show slookup (p :: rest) k = slookup rest k from by simp [slookup, h]]
        rw [ih]
        simp only [List.map_cons, List.mem_cons]
        constructor
        · intro hk hor
          rcases hor with h1 | h1
          · exact h h1.symm
          · exact hk h1
        · intro hk h1
          exact hk (Or.inr h1)

theorem recAppend_embed (r : RiderRec) (race : String) :
    recAppendRace (riderRecToJ r) race =
      riderRecToJ { r with races := r.races ++ [race] } := by
  simp [recAppendRace, riderRecToJ, arrAppendStr]

theorem nAppendRace_cons (p : String × RiderRec) (rest : Snapshot) (u : JVal)
    (race : String) :
    nAppendRace (embedSnap (p :: rest)) u race =
      (if JVal.str p.1 = u then (JVal.str p.1, recAppendRace (riderRecToJ p.2) race)
       else (JVal.str p.1, riderRecToJ p.2)) ::
        nAppendRace (embedSnap rest) u race := rfl

theorem nAppendRace_embed_absent (s : Snapshot) (id race : String)
    (h : id ∉ s.map Prod.fst) :
    nAppendRace (embedSnap s) (.str id) race = embedSnap s := by
  induction s with
  | nil => rfl
  | cons p rest ih =>
      have h1 : p.1 ≠ id := by
        intro hh
        exact h (hh ▸ List.mem_map_of_mem Prod.fst (List.mem_cons_self p rest))
      have h2 : id ∉ rest.map Prod.fst := fun hh => by
        simp only [List.map_cons, List.mem_cons] at h
        exact h (Or.inr hh)
      have hne : JVal.str p.1 ≠ JVal.str id := fun hh => h1 (JVal.str.inj hh)
      rw [nAppendRace_cons, if_neg hne, ih h2]
      rfl

theorem nAppendRace_embed (s : Snapshot) (id race : String)
    (hnd : (s.map Prod.fst).Nodup) :
    nAppendRace (embedSnap s) (.str id) race = embedSnap (sAppendRace s id race) := by
  induction s with
  | nil => rfl
  | cons p rest ih =>
      have hnd2 : (rest.map Prod.fst).Nodup := by
        simp only [List.map_cons, List.nodup_cons] at hnd
        exact hnd.2
      by_cases h : p.1 = id
      · subst h
        have habs : p.1 ∉ rest.map Prod.fst := by
          simp only [List.map_cons, List.nodup_cons] at hnd
          exact hnd.1
        have hstep : sAppendRace (p :: rest) p.1 race =
            (p.1, { p.2 with races := p.2.races ++ [race] }) :: rest := by
          simp [sAppendRace]
        rw [nAppendRace_cons, if_pos rfl, hstep, recAppend_embed,
          nAppendRace_embed_absent rest p.1 race habs]
        rfl
      · have hne : JVal.str p.1 ≠ JVal.str id := fun hh => h (JVal.str.inj hh)
        have hstep : sAppendRace (p :: rest) id race =
            (p.1, p.2) :: sAppendRace rest id race := by
          simp [sAppendRace, h]
        rw [nAppendRace_cons, if_neg hne, hstep, ih hnd2]
        rfl

theorem addOldRider_embed (s : Snapshot) (id race : String)
    (hnd : (s.map Prod.fst).Nodup) :
    addOldRider (embedSnap s) race (.str id) (.str "") =
      embedSnap (specStep s id race) := by
  unfold addOldRider specStep
  rw [aget_embedSnap_str]
  cases h : slookup s id with
  | some r =>
      simp only [Option.map_some, Option.isSome_some, if_true, h]
      exact nAppendRace_embed s id race hnd
  | none =>
      have habs : id ∉ s.map Prod.fst := (slookup_none_iff s id).mp h
      simp only [Option.map_none, Option.isSome_none, if_false, h, Bool.false_eq_true]
      have happ : embedSnap s ++ [(JVal.str id, freshOldRec (.str ""))] =
          embedSnap (s ++ [(id, { name := "", races := [] })]) := by
        unfold embedSnap
        rw [List.map_append]
        rfl
      rw [happ]
      have hnd2 : ((s ++ [(id, ({ name := "", races := [] } : RiderRec))]).map
          Prod.fst).Nodup := by
        rw [List.map_append]
        rw [List.nodup_append]
        refine ⟨hnd, List.nodup_singleton id, ?_⟩
        intro a ha hb
        simp only [List.map_cons, List.map_nil, List.mem_singleton] at hb
        exact habs (hb ▸ ha)
      exact nAppendRace_embed _ id race hnd2

theorem keys_specStep (s : Snapshot) (id race : String) :
    (specStep s id race).map Prod.fst =
      if (slookup s id).isSome then s.map Prod.fst else s.map Prod.fst ++ [id] := by
  unfold specStep
  cases h : slookup s id with
  | some r => simp only [h, Option.isSome_some, if_true, keys_sAppendRace]
  | none =>
      simp only [h, Option.isSome_none, if_false, keys_sAppendRace, Bool.false_eq_true]
      rw [List.map_append]
      rfl

theorem specStep_nodup (s : Snapshot) (id race : String)
    (hnd : (s.map Prod.fst).Nodup) :
    ((specStep s id race).map Prod.fst).Nodup := by
  rw [keys_specStep]
  cases h : slookup s id with
  | some r => simpa [h] using hnd
  | none =>
      have habs : id ∉ s.map Prod.fst := (slookup_none_iff s id).mp h
      simp only [h, Option.isSome_none, if_false, Bool.false_eq_true]
      rw [List.nodup_append]
      exact ⟨hnd, List.nodup_singleton id, fun a ha hb => by
        simp only [List.mem_singleton] at hb
        exact habs (hb ▸ ha)⟩

theorem specFold_ids (ids : List String) (race : String) (s : Snapshot)
    (hnd : (s.map Prod.fst).Nodup) :
    ids.foldl (fun acc id => addOldRider acc race (.str id) (.str "")) (embedSnap s) =
        embedSnap (ids.foldl (fun snap id => specStep snap id race) s) ∧
      (((ids.foldl (fun snap id => specStep snap id race) s).map Prod.fst)).Nodup := by
  induction ids generalizing s with
  | nil => exact ⟨rfl, hnd⟩
  | cons id rest ih =>
      simp only [List.foldl_cons]
      rw [addOldRider_embed s id race hnd]
      exact ih (specStep s id race) (specStep_nodup s id race hnd)

theorem specFold (m : List (String × List String)) (s : Snapshot)
    (hnd : (s.map Prod.fst).Nodup) :
    m.foldl
        (fun acc p => p.2.foldl (fun acc id => addOldRider acc p.1 (.str id) (.str "")) acc)
        (embedSnap s) =
      embedSnap
        (m.foldl (fun snap p => p.2.foldl (fun snap id => specStep snap id p.1) snap) s) ∧
      ((m.foldl (fun snap p => p.2.foldl (fun snap id => specStep snap id p.1) snap)
          s).map Prod.fst).Nodup := by
  induction m generalizing s with
  | nil => exact ⟨rfl, hnd⟩
  | cons p rest ih =>
      simp only [List.foldl_cons]
      obtain ⟨he, hn⟩ := specFold_ids p.2 p.1 s hnd
      rw [he]
      exact ih _ hn

theorem invertRaceKeyed_encodeA (m : List (String × List String)) :
    invertRaceKeyed (encodeA m) =
      m.foldl
        (fun acc p => p.2.foldl (fun acc id => addOldRider acc p.1 (.str id) (.str "")) acc)
        [] := by
  unfold invertRaceKeyed encodeA
  rw [List.foldl_map]
  simp only [List.foldl_map]

theorem processFold_ids (ids : List String) (race : String)
    (acc : List (JVal × JVal)) (hne : ∀ id ∈ ids, id ≠ "") :
    ids.foldl (fun m2 id => processOldRider m2 race (.str id)) acc =
      ids.foldl (fun m2 id => addOldRider m2 race (.str id) (.str "")) acc := by
  induction ids generalizing acc with
  | nil => rfl
  | cons id rest ih =>
      simp only [List.foldl_cons]
      have h1 : id ≠ "" := hne id (List.mem_cons_self id rest)
      have hstep : processOldRider acc race (.str id) =
          addOldRider acc race (.str id) (.str "") := by
        unfold processOldRider
        simp [JVal.truthy, h1]
      rw [hstep]
      exact ih _ (fun i hi => hne i (List.mem_cons_of_mem id hi))

theorem timestampedFold (m : List (String × List String)) (acc : List (JVal × JVal))
    (hne : ∀ p ∈ m, ∀ id ∈ p.2, id ≠ "") :
    (encodeA m).foldl
        (fun m2 kv =>
          match kv.2 with
          | .arr riders => riders.foldl (fun m3 rider => processOldRider m3 kv.1 rider) m2
          | _ => m2)
        acc =
      m.foldl
        (fun m2 p => p.2.foldl (fun m2 id => addOldRider m2 p.1 (.str id) (.str "")) m2)
        acc := by
  induction m generalizing acc with
  | nil => rfl
  | cons p rest ih =>
      show (encodeA rest).foldl _
          ((p.2.map JVal.str).foldl (fun m3 rider => processOldRider m3 p.1 rider) acc) = _
      rw [List.foldl_map]
      rw [processFold_ids p.2 p.1 acc (hne p (List.mem_cons_self p rest))]
      exact ih _ (fun q hq => hne q (List.mem_cons_of_mem p hq))

theorem normalizeOldTimestamped_encodeB (m : List (String × List String))
    (hne : ∀ p ∈ m, ∀ id ∈ p.2, id ≠ "") :
    normalizeOldTimestamped (encodeB m) =
      m.foldl
        (fun m2 p => p.2.foldl (fun m2 id => addOldRider m2 p.1 (.str id) (.str "")) m2)
        [] := by
  unfold normalizeOldTimestamped
  rw [show jgetD (encodeB m) "races" (.obj []) = .obj (encodeA m) from rfl]
  exact timestampedFold m [] hne

theorem jlookup_encodeA_none (m : List (String × List String)) (k : String)
    (h : ∀ p ∈ m, p.1 ≠ k) :
    jlookup (encodeA m) k = none := by
  induction m with
  | nil => rfl
  | cons p rest ih =>
      have h1 := h p (List.mem_cons_self p rest)
      show (if p.1 = k then some (JVal.arr (p.2.map JVal.str)) else jlookup (encodeA rest) k) =
        none
      rw [if_neg h1]
      exact ih (fun q hq => h q (List.mem_cons_of_mem p hq))

theorem normalize_old_encodeA (m : List (String × List String))
    (hraces : ∀ p ∈ m, p.1 ≠ "races" ∧ p.1 ≠ "timestamp_utc") :
    normalize_old (encodeA m) = invertRaceKeyed (encodeA m) := by
  cases m with
  | nil => rfl
  | cons p rest =>
      have hr : hasKey (encodeA (p :: rest)) "races" = false := by
        unfold hasKey
        rw [jlookup_encodeA_none _ _ (fun q hq => (hraces q hq).1)]
        rfl
      have ht : hasKey (encodeA (p :: rest)) "timestamp_utc" = false := by
        unfold hasKey
        rw [jlookup_encodeA_none _ _ (fun q hq => (hraces q hq).2)]
        rfl
      show normalize_old ((p.1, JVal.arr (p.2.map JVal.str)) :: encodeA rest) = _
      unfold normalize_old
      rw [show (((p.1, JVal.arr (p.2.map JVal.str)) :: encodeA rest :
        List (String × JVal)).isEmpty) = false from rfl]
      rw [show hasKey ((p.1, JVal.arr (p.2.map JVal.str)) :: encodeA rest) "races" = false
        from hr]
      rw [show hasKey ((p.1, JVal.arr (p.2.map JVal.str)) :: encodeA rest) "timestamp_utc" =
        false from ht]
      simp only [Bool.false_eq_true, if_false, Bool.or_self]
      rfl

theorem keys_specFold_ids (ids : List String) (race : String) (s : Snapshot) (k : String)
    (hk : k ∈ (ids.foldl (fun snap id => specStep snap id race) s).map Prod.fst) :
    k ∈ s.map Prod.fst ∨ k ∈ ids := by
  induction ids generalizing s with
  | nil => exact Or.inl hk
  | cons id rest ih =>
      simp only [List.foldl_cons] at hk
      rcases ih (specStep s id race) hk with h | h
      · rw [keys_specStep] at h
        by_cases hp : (slookup s id).isSome
        · rw [if_pos hp] at h
          exact Or.inl h
        · rw [if_neg hp] at h
          rcases List.mem_append.mp h with h1 | h1
          · exact Or.inl h1
          · simp only [List.mem_singleton] at h1
            exact Or.inr (h1 ▸ List.mem_cons_self id rest)
      · exact Or.inr (List.mem_cons_of_mem id h)

theorem keys_specInvert_fold (m : List (String × List String)) (s : Snapshot) (k : String)
    (hk : k ∈ ((m.foldl (fun snap p => p.2.foldl (fun snap id => specStep snap id p.1) snap)
      s).map Prod.fst)) :
    k ∈ s.map Prod.fst ∨ ∃ p ∈ m, k ∈ p.2 := by
  induction m generalizing s with
  | nil => exact Or.inl hk
  | cons p rest ih =>
      simp only [List.foldl_cons] at hk
      rcases ih _ hk with h | h
      · rcases keys_specFold_ids p.2 p.1 s k h with h1 | h1
        · exact Or.inl h1
        · exact Or.inr ⟨p, List.mem_cons_self p rest, h1⟩
      · obtain ⟨q, hq, hkq⟩ := h
        exact Or.inr ⟨q, List.mem_cons_of_mem p hq, hkq⟩

theorem keys_specInvert (m : List (String × List String)) (k : String)
    (hk : k ∈ (specInvert m).map Prod.fst) : ∃ p ∈ m, k ∈ p.2 := by
  rcases keys_specInvert_fold m [] k hk with h | h
  · cases h
  · exact h

theorem jlookup_none (l : List (String × JVal)) (k : String)
    (h : ∀ q ∈ l, q.1 ≠ k) : jlookup l k = none := by
  induction l with
  | nil => rfl
  | cons q rest ih =>
      have h1 := h q (List.mem_cons_self q rest)
      simp only [jlookup, if_neg h1]
      exact ih (fun r hr => h r (List.mem_cons_of_mem q hr))

/-- C10 counterexample: the race-keyed legacy prior
`{"timestamp_utc": ["u1"]}` (a legal race-keyed mapping with one race
named `timestamp_utc`) is misdetected as the timestamped legacy format
and normalised to the empty prior, so the diff against an empty new
snapshot emits nothing, whereas the diff against the rider-keyed
snapshot obtained by inverting the mapping emits a REMOVED event;
each side runs under a valid enumeration of its rider-url set. -/
theorem c10_counterexample :
    IsEnum [] [("timestamp_utc", .arr [.str "u1"])] [] ∧
      compute_changes "t" [("timestamp_utc", .arr [.str "u1"])] [] [] = [] ∧
      specInvert [("timestamp_utc", ["u1"])] =
        [("u1", { name := "", races := ["timestamp_utc"] })] ∧
      IsEnum [.str "u1"] (snapToJ (specInvert [("timestamp_utc", ["u1"])])) [] ∧
      compute_changes "t" (snapToJ (specInvert [("timestamp_utc", ["u1"])])) [] [.str "u1"] =
        [⟨"t", .str "timestamp_utc", "REMOVED", .str "Unknown", .str "u1"⟩] := by decide

/-- C10 (amended): for a race-keyed legacy prior whose race names
avoid the two reserved sniffing keys (`races`, `timestamp_utc`) and
whose rider ids are non-empty and avoid those keys too, the diff — in
either legacy encoding, flat or under a `races` key — produces exactly
the same events as the diff against the rider-keyed snapshot obtained
by inverting the mapping with empty-string names; and a prior whose
first value has an unrecognised shape is treated as an empty prior. -/
theorem compute_changes_legacy (ts : String) (m : List (String × List String))
    (new : Snapshot) (ord : List JVal)
    (hraces : ∀ p ∈ m, p.1 ≠ "races" ∧ p.1 ≠ "timestamp_utc")
    (hids : ∀ p ∈ m, ∀ id ∈ p.2, id ≠ "" ∧ id ≠ "races" ∧ id ≠ "timestamp_utc") :
    compute_changes ts (encodeA m) new ord =
        compute_changes ts (snapToJ (specInvert m)) new ord ∧
      compute_changes ts (encodeB m) new ord =
        compute_changes ts (snapToJ (specInvert m)) new ord ∧
      ∀ (k : String) (v : JVal) (rest : List (String × JVal)),
        (∀ q ∈ (k, v) :: rest, q.1 ≠ "races" ∧ q.1 ≠ "timestamp_utc") →
        unrecognizedFirst v = true →
        compute_changes ts ((k, v) :: rest) new ord = compute_changes ts [] new ord := by
  have hkeys : ∀ p ∈ specInvert m, p.1 ≠ "races" ∧ p.1 ≠ "timestamp_utc" := by
    intro p hp
    obtain ⟨q, hq, hpq⟩ := keys_specInvert m p.1 (List.mem_map_of_mem Prod.fst hp)
    exact ⟨(hids q hq p.1 hpq).2.1, (hids q hq p.1 hpq).2.2⟩
  have hrhs : normalize_old (snapToJ (specInvert m)) = embedSnap (specInvert m) :=
    normalize_old_snapToJ _ hkeys
  have hne : ∀ p ∈ m, ∀ id ∈ p.2, id ≠ "" := fun p hp id hid => (hids p hp id hid).1
  have hfold := specFold m [] List.nodup_nil
  have hfold1 :
      m.foldl
          (fun acc p => p.2.foldl (fun acc id => addOldRider acc p.1 (.str id) (.str "")) acc)
          [] =
        embedSnap (specInvert m) := hfold.1
  refine ⟨?_, ?_, ?_⟩
  · rw [compute_changes_flatMap, compute_changes_flatMap, hrhs,
      normalize_old_encodeA m hraces, invertRaceKeyed_encodeA, hfold1]
  · rw [compute_changes_flatMap, compute_changes_flatMap, hrhs,
      show normalize_old (encodeB m) = normalizeOldTimestamped (encodeB m) from rfl,
      normalizeOldTimestamped_encodeB m hne, hfold1]
  · intro k v rest hq hv
    rw [compute_changes_flatMap, compute_changes_flatMap]
    have hzero : normalize_old ((k, v) :: rest) = [] := by
      have hr : hasKey ((k, v) :: rest) "races" = false := by
        unfold hasKey
        rw [jlookup_none _ _ (fun q hq2 => (hq q hq2).1)]
        rfl
      have ht : hasKey ((k, v) :: rest) "timestamp_utc" = false := by
        unfold hasKey
        rw [jlookup_none _ _ (fun q hq2 => (hq q hq2).2)]
        rfl
      unfold normalize_old
      rw [show (((k, v) :: rest : List (String × JVal)).isEmpty) = false from rfl]
      rw [show hasKey ((k, v) :: rest) "races" = false from hr]
      rw [show hasKey ((k, v) :: rest) "timestamp_utc" = false from ht]
      simp only [Bool.false_eq_true, if_false, Bool.or_self]
      cases v with
      | obj kvs0 =>
          simp only [unrecognizedFirst, Bool.not_eq_true'] at hv
          simp [hv]
      | str s2 => rfl
      | null => rfl
      | num n => rfl
      | arr xs => exact absurd hv (by simp [unrecognizedFirst])
    rw [hzero]
    rfl

/-- C10 witness: the flat-shape conjunct of the amended theorem
evaluated on a concrete one-race legacy prior. -/
theorem compute_changes_legacy_witness :
    compute_changes "t" (encodeA [("RaceA", ["u1", "u2"])]) [] [.str "u1", .str "u2"] =
      compute_changes "t" (snapToJ (specInvert [("RaceA", ["u1", "u2"])])) []
        [.str "u1", .str "u2"] :=
  (compute_changes_legacy "t" [("RaceA", ["u1", "u2"])] [] [.str "u1", .str "u2"]
    (by decide) (by decide)).1

end WM26
